import Mathlib

set_option linter.unusedVariables false
set_option maxRecDepth 4000

/- Verification development for the unit decomposition/recomposition engine and
   the resilient change-set extractor of the gopilot tool (src/main.go).
   Strings handled by the extractor are modelled as lists of characters; the
   inputs exercised are ASCII, where Go byte indexing and rune iteration
   coincide. -/

/-- One edit record, mirroring the Go struct FileContent (main.go lines 32-38).
    Field tags: filepath, content, delete, insert-before, insert-after. -/
structure FileContent where
  filePath : String
  content : String
  delete : Bool
  insertBefore : String
  insertAfter : String
deriving DecidableEq

/-- The zero value of the Go struct FileContent, left by encoding/json for an
    array element whose decoding failed. -/
def zeroFC : FileContent := ⟨"", "", false, "", ""⟩

/-- Whether a character is JSON whitespace (space, tab, newline, carriage return). -/
def isWs (c : Char) : Bool := c = ' ' || c = '\t' || c = '\n' || c = '\r'

/-- Drop leading JSON whitespace. -/
def skipWs : List Char → List Char
  | [] => []
  | c :: t => if isWs c then skipWs t else c :: t

/-- Value of a hexadecimal digit. -/
def hexVal (c : Char) : Option Nat :=
  if '0' ≤ c ∧ c ≤ '9' then some (c.toNat - '0'.toNat)
  else if 'a' ≤ c ∧ c ≤ 'f' then some (c.toNat - 'a'.toNat + 10)
  else if 'A' ≤ c ∧ c ≤ 'F' then some (c.toNat - 'A'.toNat + 10)
  else none

/-- JSON values, as recognised by Go encoding/json. Number lexemes are kept as
    text: no claim depends on their numeric value. -/
inductive JVal where
  | jnull : JVal
  | jbool : Bool → JVal
  | jnum : List Char → JVal
  | jstr : List Char → JVal
  | jarr : List JVal → JVal
  | jobj : List (List Char × JVal) → JVal

/-- Scan the body of a JSON string literal (the opening quote has been
    consumed), decoding escapes; returns the decoded text and the rest. -/
def parseJStrAux (acc : List Char) (cs : List Char) : Option (List Char × List Char) :=
  match cs with
  | [] => none
  | '"' :: t => some (acc.reverse, t)
  | '\\' :: t =>
    match t with
    | [] => none
    | 'u' :: a :: b :: c :: d :: t4 =>
      match hexVal a, hexVal b, hexVal c, hexVal d with
      | some ha, some hb, some hc, some hd =>
        parseJStrAux (Char.ofNat (((ha * 16 + hb) * 16 + hc) * 16 + hd) :: acc) t4
      | _, _, _, _ => none
    | e :: t2 =>
      if e = '"' then parseJStrAux ('"' :: acc) t2
      else if e = '\\' then parseJStrAux ('\\' :: acc) t2
      else if e = '/' then parseJStrAux ('/' :: acc) t2
      else if e = 'b' then parseJStrAux (Char.ofNat 8 :: acc) t2
      else if e = 'f' then parseJStrAux (Char.ofNat 12 :: acc) t2
      else if e = 'n' then parseJStrAux ('\n' :: acc) t2
      else if e = 'r' then parseJStrAux ('\r' :: acc) t2
      else if e = 't' then parseJStrAux ('\t' :: acc) t2
      else none
  | c :: t => if c.toNat < 32 then none else parseJStrAux (c :: acc) t

/-- Take a maximal run of decimal digits. -/
def takeDigits : List Char → List Char × List Char
  | [] => ([], [])
  | c :: t => if c.isDigit then
      let p := takeDigits t
      (c :: p.1, p.2)
    else ([], c :: t)

/-- Integer part of a JSON number: 0, or a nonzero digit followed by digits. -/
def parseIntPart : List Char → Option (List Char × List Char)
  | [] => none
  | c :: t =>
    if c = '0' then some ([c], t)
    else if c.isDigit then
      let p := takeDigits t
      some (c :: p.1, p.2)
    else none

/-- Optional fraction part of a JSON number. -/
def parseFrac : List Char → Option (List Char × List Char)
  | '.' :: t =>
    match takeDigits t with
    | ([], _) => none
    | (ds, r) => some ('.' :: ds, r)
  | cs => some ([], cs)

/-- Optional exponent part of a JSON number. -/
def parseExp : List Char → Option (List Char × List Char)
  | [] => some ([], [])
  | c :: t =>
    if c = 'e' || c = 'E' then
      let p : List Char × List Char :=
        match t with
        | [] => ([], [])
        | s :: t2 => if s = '+' || s = '-' then ([s], t2) else ([], s :: t2)
      match takeDigits p.2 with
      | ([], _) => none
      | (ds, r) => some (c :: (p.1 ++ ds), r)
    else some ([], c :: t)

/-- A complete JSON number lexeme starting at the given characters. -/
def parseNum (cs : List Char) : Option (List Char × List Char) :=
  let sp : List Char × List Char :=
    match cs with
    | '-' :: t => (['-'], t)
    | _ => ([], cs)
  match parseIntPart sp.2 with
  | none => none
  | some (ip, r1) =>
    match parseFrac r1 with
    | none => none
    | some (fp, r2) =>
      match parseExp r2 with
      | none => none
      | some (ep, r3) => some (sp.1 ++ ip ++ fp ++ ep, r3)

mutual

/-- Recursive-descent parser for one JSON value (fuel-indexed). -/
def parseVal (fuel : Nat) (cs : List Char) : Option (JVal × List Char) :=
  match fuel with
  | 0 => none
  | f + 1 =>
    match skipWs cs with
    | [] => none
    | c :: t =>
      if c = 'n' then
        match t with
        | 'u' :: 'l' :: 'l' :: r => some (.jnull, r)
        | _ => none
      else if c = 't' then
        match t with
        | 'r' :: 'u' :: 'e' :: r => some (.jbool true, r)
        | _ => none
      else if c = 'f' then
        match t with
        | 'a' :: 'l' :: 's' :: 'e' :: r => some (.jbool false, r)
        | _ => none
      else if c = '"' then
        match parseJStrAux [] t with
        | some (s, r) => some (.jstr s, r)
        | none => none
      else if c = '-' || c.isDigit then
        match parseNum (c :: t) with
        | some (lex, r) => some (.jnum lex, r)
        | none => none
      else if c = '[' then
        match skipWs t with
        | ']' :: r => some (.jarr [], r)
        | t2 =>
          match parseArrItems f t2 [] with
          | some (items, r) => some (.jarr items, r)
          | none => none
      else if c = '{' then
        match skipWs t with
        | '}' :: r => some (.jobj [], r)
        | t2 =>
          match parseObjItems f t2 [] with
          | some (fields, r) => some (.jobj fields, r)
          | none => none
      else none

/-- Items of a JSON array after the opening bracket (at least one item). -/
def parseArrItems (fuel : Nat) (cs : List Char) (acc : List JVal) :
    Option (List JVal × List Char) :=
  match fuel with
  | 0 => none
  | f + 1 =>
    match parseVal f cs with
    | none => none
    | some (v, r) =>
      match skipWs r with
      | ',' :: r2 => parseArrItems f r2 (acc ++ [v])
      | ']' :: r2 => some (acc ++ [v], r2)
      | _ => none

/-- Members of a JSON object after the opening brace (at least one member). -/
def parseObjItems (fuel : Nat) (cs : List Char) (acc : List (List Char × JVal)) :
    Option (List (List Char × JVal) × List Char) :=
  match fuel with
  | 0 => none
  | f + 1 =>
    match skipWs cs with
    | '"' :: t =>
      match parseJStrAux [] t with
      | none => none
      | some (k, r) =>
        match skipWs r with
        | ':' :: r2 =>
          match parseVal f r2 with
          | none => none
          | some (v, r3) =>
            match skipWs r3 with
            | ',' :: r4 => parseObjItems f r4 (acc ++ [(k, v)])
            | '}' :: r4 => some (acc ++ [(k, v)], r4)
            | _ => none
        | _ => none
    | _ => none

end

/-- Full-document JSON validity check and parse, as performed by Go
    json.Unmarshal (checkValid): exactly one value plus trailing whitespace. -/
def checkValidParse (cs : List Char) : Option JVal :=
  match parseVal (2 * cs.length + 8) cs with
  | some (v, r) => if (skipWs r).isEmpty then some v else none
  | none => none

/-- Decode a JSON value into a Go string field; a null leaves the field
    unchanged without error, any other non-string value is a type error that
    skips the field. -/
def decStrField (v : JVal) (old : String) : String × Bool :=
  match v with
  | .jstr s => (⟨s⟩, true)
  | .jnull => (old, true)
  | _ => (old, false)

/-- Decode a JSON value into a Go bool field, with the same null/skip rules. -/
def decBoolField (v : JVal) (old : Bool) : Bool × Bool :=
  match v with
  | .jbool b => (b, true)
  | .jnull => (old, true)
  | _ => (old, false)

/-- Decode one JSON object member into a FileContent under its json tags;
    unknown members are ignored, mismatched types are recorded as errors while
    decoding continues (encoding/json behaviour). -/
def decFCField (fc : FileContent) (ok : Bool) (k : List Char) (v : JVal) :
    FileContent × Bool :=
  if k = "filepath".data then
    let p := decStrField v fc.filePath
    ({ fc with filePath := p.1 }, ok && p.2)
  else if k = "content".data then
    let p := decStrField v fc.content
    ({ fc with content := p.1 }, ok && p.2)
  else if k = "delete".data then
    let p := decBoolField v fc.delete
    ({ fc with delete := p.1 }, ok && p.2)
  else if k = "insert-before".data then
    let p := decStrField v fc.insertBefore
    ({ fc with insertBefore := p.1 }, ok && p.2)
  else if k = "insert-after".data then
    let p := decStrField v fc.insertAfter
    ({ fc with insertAfter := p.1 }, ok && p.2)
  else (fc, ok)

/-- Decode a JSON value into one FileContent. A non-object element is a type
    error that leaves the zero value; null has no effect and no error. -/
def decFC : JVal → FileContent × Bool
  | .jobj fields => fields.foldl (fun p kv => decFCField p.1 p.2 kv.1 kv.2) (zeroFC, true)
  | .jnull => (zeroFC, true)
  | _ => (zeroFC, false)

/-- Decode a JSON value into the slice []FileContent. Go sets the slice to nil
    on null, decodes arrays element by element keeping zero values at failed
    elements, and leaves the slice untouched on a top-level type mismatch. -/
def decChanges (prev : List FileContent) : JVal → List FileContent × Bool
  | .jnull => ([], true)
  | .jarr items => (items.map (fun v => (decFC v).1), items.all (fun v => (decFC v).2))
  | _ => (prev, false)

/-- Model of Go json.Unmarshal(data, &changes) for changes : []FileContent.
    Returns the value of the variable afterwards and whether no error occurred.
    A syntax error leaves the variable untouched (Unmarshal validates the whole
    input before decoding); element-level type errors leave partial data. -/
def goUnmarshalChanges (prev : List FileContent) (cs : List Char) :
    List FileContent × Bool :=
  match checkValidParse cs with
  | none => (prev, false)
  | some v => decChanges prev v

/-- State of the character scan of parseChanges (main.go lines 1027-1054):
    brace depth, inside-string and escaped flags, whether the first top-level
    opening brace has been seen, the candidate buffer, and whether the Go loop
    has broken out. -/
structure ScanState where
  depth : Int
  inString : Bool
  escaped : Bool
  objectStarted : Bool
  acc : List Char
  done : Bool

/-- Initial scan state. -/
def scanInit : ScanState := ⟨0, false, false, false, [], false⟩

/-- The if-chain of the scan loop of parseChanges: string tracking, depth
    tracking, and the break at the closing brace that returns the depth to
    zero after an object started (which also writes that brace). -/
def scanBody (s : ScanState) (c : Char) : ScanState :=
  if s.inString then
    { s with inString := if !s.escaped && c = '"' then false else true,
             escaped := c = '\\' && !s.escaped }
  else if c = '"' && !s.escaped then
    { s with inString := true }
  else if c = '{' then
    { s with depth := s.depth + 1, objectStarted := true }
  else if c = '}' then
    if s.depth - 1 = 0 ∧ s.objectStarted = true then
      { s with depth := s.depth - 1, acc := s.acc ++ [c], done := true }
    else { s with depth := s.depth - 1 }
  else s

/-- One iteration of the scan loop of parseChanges: nothing happens after the
    loop has broken, and the candidate buffer accumulates the character only
    once objectStarted holds. -/
def scanStep (s : ScanState) (c : Char) : ScanState :=
  if s.done then s
  else if (scanBody s c).done then scanBody s c
  else if (scanBody s c).objectStarted then
    { scanBody s c with acc := (scanBody s c).acc ++ [c] }
  else scanBody s c

/-- The candidate buffer (validJSON) produced by scanning the text from the
    first bracket onwards. -/
def scanCandidate (cs : List Char) : List Char := (cs.foldl scanStep scanInit).acc

/-- Index of the first occurrence of a character, mirroring strings.Index for
    a one-byte pattern on ASCII input. -/
def idxOfCh (c : Char) : List Char → Option Nat
  | [] => none
  | x :: t => if x = c then some 0 else (idxOfCh c t).map (· + 1)

/-- The containers-and-files state touched by the tool: one splitorder.json
    per directory (keyed by directory), the unit files (keyed by path), and the
    set of existing directories. -/
structure FS where
  orders : List (String × List String)
  files : List (String × String)
  dirs : List String
deriving DecidableEq

/-- Association-list lookup (first binding wins). -/
def alookup {α : Type} (k : String) : List (String × α) → Option α
  | [] => none
  | (k', v) :: t => if k' = k then some v else alookup k t

/-- Association-list update or insert. -/
def aset {α : Type} (k : String) (v : α) : List (String × α) → List (String × α)
  | [] => [(k, v)]
  | (k', v') :: t => if k' = k then (k, v) :: t else (k', v') :: aset k v t

/-- Association-list removal; removing an absent key is a no-op. -/
def aremove {α : Type} (k : String) : List (String × α) → List (String × α)
  | [] => []
  | (k', v') :: t => if k' = k then t else (k', v') :: aremove k t

/-- Last path component before the final slash removed, as filepath.Dir for
    the simple slash-separated paths the tool builds. -/
def dirNameCh (cs : List Char) : List Char :=
  match cs.reverse.dropWhile (fun c => c ≠ '/') with
  | [] => ['.']
  | _ :: rest => if rest.isEmpty then ['/'] else rest.reverse

/-- filepath.Dir on the simple paths used by the tool. -/
def dirName (s : String) : String := ⟨dirNameCh s.data⟩

/-- filepath.Base on the simple paths used by the tool. -/
def baseName (s : String) : String := ⟨(s.data.reverse.takeWhile (fun c => c ≠ '/')).reverse⟩

/-- Membership test on a list of strings (main.go lines 418-425). -/
def contains (slice : List String) (item : String) : Bool :=
  match slice with
  | [] => false
  | s :: t => if s = item then true else contains t item

/-- Placement hint extraction (main.go lines 472-481): insert-before wins over
    insert-after; returns (insertBefore flag, insertion point). -/
def getInsertionPoint (c : FileContent) : Bool × String :=
  if c.insertBefore ≠ "" then (true, c.insertBefore)
  else if c.insertAfter ≠ "" then (false, c.insertAfter)
  else (false, "")

/-- Splice newFile into the split order relative to the first entry equal to
    insertionPoint + ".gopart"; append at the end when no entry matches
    (main.go lines 1405-1415). -/
def updateSplitOrder (order : List String) (newFile insertionPoint : String)
    (insertBefore : Bool) : List String :=
  match order with
  | [] => [newFile]
  | f :: rest =>
    if f = insertionPoint ++ ".gopart" then
      if insertBefore then newFile :: f :: rest
      else f :: newFile :: rest
    else f :: updateSplitOrder rest newFile insertionPoint insertBefore

/-- Split a character list at newlines, as strings.Split(s, newline). -/
def splitNl : List Char → List (List Char)
  | [] => [[]]
  | c :: t =>
    match splitNl t with
    | [] => [[]]
    | l :: ls => if c = '\n' then [] :: l :: ls else (c :: l) :: ls

/-- Join lines with newlines, as strings.Join(lines, newline). -/
def intercalateNl : List (List Char) → List Char
  | [] => []
  | [l] => l
  | l :: ls => l ++ '\n' :: intercalateNl ls

/-- Whether a needle is a leading segment of a haystack. -/
def prefixCheck : List Char → List Char → Bool
  | [], _ => true
  | _ :: _, [] => false
  | n :: ns, h :: hs => n = h && prefixCheck ns hs

/-- A line survives removeInsertionPoint unless it starts with one of the two
    placement-directive markers. -/
def lineKept (l : List Char) : Bool :=
  !(prefixCheck "// insert-before: ".data l) && !(prefixCheck "// insert-after: ".data l)

/-- Strip placement-directive lines from a unit content
    (main.go lines 503-512). -/
def removeInsertionPoint (content : String) : String :=
  ⟨intercalateNl ((splitNl content.data).filter lineKept)⟩

/-- Reconcile one edit record against the split order of its directory
    (body of the loop of processLocations, main.go lines 105-133). -/
def processOne (fs : FS) (c : FileContent) : FS × FileContent :=
  let baseDir := dirName c.filePath
  let fs' :=
    match alookup baseDir fs.orders with
    | none => { fs with orders := aset baseDir [baseName c.filePath] fs.orders }
    | some splitOrder =>
      let ip := getInsertionPoint c
      let fileName := baseName c.filePath
      let newOrder :=
        if ip.1 || ip.2 ≠ "" then updateSplitOrder splitOrder fileName ip.2 ip.1
        else if contains splitOrder fileName then splitOrder
        else splitOrder ++ [fileName]
      { fs with orders := aset baseDir newOrder fs.orders }
  (fs', { c with content := removeInsertionPoint c.content })

/-- The manifest reconciler: every incoming record updates the split order of
    its directory and has its placement-directive lines stripped
    (main.go lines 105-133). -/
def processLocations (fs : FS) : List FileContent → FS × List FileContent
  | [] => (fs, [])
  | c :: rest =>
    let p := processOne fs c
    let q := processLocations p.1 rest
    (q.1, p.2 :: q.2)

/-- Apply one edit record to the file store (body of the loop of applyChanges,
    main.go lines 712-756): create the directory and a fresh single-entry
    split order when needed, then delete or write the unit file. A failed
    delete is logged and ignored. -/
def applyOne (fs : FS) (c : FileContent) : FS :=
  let dir := dirName c.filePath
  let fs1 :=
    if contains fs.dirs dir then fs
    else
      let fs0 := { fs with dirs := dir :: fs.dirs }
      match alookup dir fs0.orders with
      | some _ => fs0
      | none => { fs0 with orders := aset dir [baseName c.filePath] fs0.orders }
  if c.delete then { fs1 with files := aremove c.filePath fs1.files }
  else { fs1 with files := aset c.filePath c.content fs1.files }

/-- applyChanges over a record list (main.go lines 712-756). -/
def applyChanges (fs : FS) (cs : List FileContent) : FS := cs.foldl applyOne fs

/-- An edit batch as executed by the tool: records pass through the manifest
    reconciler (inside parseChanges) and are then applied to the store. -/
def applyEdits (fs : FS) (cs : List FileContent) : FS :=
  let p := processLocations fs cs
  applyChanges p.1 p.2

/-- The resilient change-set extractor (main.go lines 1011-1074). The external
    continuation requestor generateAdditionalChanges is an opaque oracle cont
    taking the already-parsed records and the unconsumed remainder. -/
def parseChanges (cont : List FileContent → List Char → List FileContent)
    (fs : FS) (raw : List Char) : FS × List FileContent :=
  let p0 := goUnmarshalChanges [] raw
  if p0.2 then processLocations fs p0.1
  else
    match idxOfCh '[' raw with
    | none => (fs, p0.1)
    | some start =>
      let rawJSON := raw.drop start
      let cand := scanCandidate rawJSON
      if cand = [] then (fs, p0.1)
      else
        let p1 := goUnmarshalChanges p0.1 cand
        if p1.2 then
          let cs2 :=
            if cand.length < rawJSON.length then
              p1.1 ++ cont p1.1 (rawJSON.drop cand.length)
            else p1.1
          processLocations fs cs2
        else (fs, p1.1)

/-- A top-level declaration of a parsed Go source file, as delivered by the Go
    parser to splitGoFile: the verbatim declaration text (content from the
    declaration keyword to its end, excluding the doc comment) together with
    the doc-comment lines that textually precede it. const declarations are a
    separate token from var and type declarations in the Go AST. -/
inductive GoDecl where
  | importDecl : String → GoDecl
  | constDecl : List String → String → GoDecl
  | varTypeDecl : List String → String → GoDecl
  | funcDecl : List String → String → String → GoDecl
deriving DecidableEq

/-- A parsed Go source file: package name plus declarations in source order. -/
structure GoFile where
  pkgName : String
  decls : List GoDecl
deriving DecidableEq

/-- The header unit written to imports.gopart (main.go lines 871-879): the
    package clause and the import declarations. -/
def importsPartOf (f : GoFile) : String :=
  f.decls.foldl
    (fun a d =>
      match d with
      | .importDecl t => a ++ t ++ "\n"
      | _ => a)
    ("package " ++ f.pkgName ++ "\n\n")

/-- The doc-line filter applied by splitGoFile: strings.HasPrefix(text,
    go:embed marker). -/
def embedKeep (l : String) : Bool := prefixCheck "//go:embed".data l.data

/-- The contribution of one declaration to varsandstructs.gopart
    (main.go lines 885-898): var and type declarations keep their go:embed doc
    lines and their text; every other declaration contributes nothing. -/
def vtSegment : GoDecl → String
  | .varTypeDecl doc text =>
    ((doc.filter embedKeep).foldl (fun a l => a ++ (l ++ "\n")) "") ++ (text ++ "\n\n")
  | _ => ""

/-- The shared-declarations unit written to varsandstructs.gopart. -/
def varsPartOf (decls : List GoDecl) : String :=
  decls.foldl (fun a d => a ++ vtSegment d) ""

/-- The function map built by splitGoFile (main.go lines 899-902): keyed by
    name, later declarations with the same name overwrite earlier ones. -/
def collectFuncs (decls : List GoDecl) : List (String × String) :=
  decls.foldl
    (fun m d =>
      match d with
      | .funcDecl _ n t => aset n (t ++ "\n") m
      | _ => m)
    []

/-- The persisted output of splitGoFile for one file: the two fixed units, the
    function units, and splitorder.json. -/
structure SplitResult where
  importsPart : String
  varsPart : String
  funcs : List (String × String)
  order : List String
deriving DecidableEq

/-- splitGoFile (main.go lines 850-923). The function units are appended to
    the split order by ranging over a Go map, whose iteration order is
    unspecified; that order is the parameter iter. -/
def splitGoFile (f : GoFile) (iter : List String) : SplitResult :=
  ⟨importsPartOf f, varsPartOf f.decls, collectFuncs f.decls,
   "imports.gopart" :: "varsandstructs.gopart" :: iter.map (fun n => n ++ ".gopart")⟩

/-- Join parts with one blank line, as strings.Join(parts, two newlines)
    (main.go line 458). -/
def joinSep : List String → String
  | [] => ""
  | [p] => p
  | p :: t => p ++ "\n\n" ++ joinSep t

/-- Drop every NUL character, as strings.ReplaceAll(s, NUL, empty)
    (main.go line 461). -/
def removeNul (s : String) : String := ⟨s.data.filter (fun c => c ≠ Char.ofNat 0)⟩

/-- Read the parts named by a split order from a unit store; any missing part
    is fatal (log.Fatalf in unsplitGoFile). -/
def readParts (lk : String → Option String) : List String → Option (List String)
  | [] => some []
  | e :: t =>
    match lk e, readParts lk t with
    | some p, some ps => some (p :: ps)
    | _, _ => none

/-- The composer core of unsplitGoFile (main.go lines 447-461): concatenate
    the stored parts in split order separated by blank lines, then silently
    drop every NUL character. -/
def unsplitFromStore (lk : String → Option String) (order : List String) :
    Option String :=
  (readParts lk order).map (fun ps => removeNul (joinSep ps))

/-- unsplitGoFile over the file-store state (main.go lines 427-470): read the
    split order of the directory and compose the parts stored in it. -/
def unsplitGoFile (fs : FS) (dir : String) : Option String :=
  match alookup dir fs.orders with
  | none => none
  | some order => unsplitFromStore (fun p => alookup (dir ++ "/" ++ p) fs.files) order

/-- Strip a trailing part-file extension from a split-order entry. -/
def stripGopart (s : String) : String :=
  if prefixCheck ".gopart".data.reverse s.data.reverse then
    ⟨(s.data.reverse.drop 7).reverse⟩
  else s

/-- Unit lookup for a SplitResult, matching the files splitGoFile wrote. -/
def lookupPart (r : SplitResult) (e : String) : Option String :=
  if e = "imports.gopart" then some r.importsPart
  else if e = "varsandstructs.gopart" then some r.varsPart
  else alookup (stripGopart e) r.funcs

/-- Recomposition of a split result: unsplitGoFile over the units and manifest
    that splitGoFile persisted. -/
def composeSplit (r : SplitResult) : Option String :=
  unsplitFromStore (lookupPart r) r.order

/-- Whether a needle occurs as a contiguous segment of a haystack. -/
def segCheck (needle : List Char) : List Char → Bool
  | [] => prefixCheck needle []
  | h :: t => prefixCheck needle (h :: t) || segCheck needle t

/-- A continuation oracle that returns no further records: the concrete stand-in
    used when evaluating the extractor on closed inputs. -/
def noCont : List FileContent → List Char → List FileContent := fun _ _ => []

/-- An empty file-store state. -/
def fsEmpty : FS := ⟨[], [], []⟩

/-- The truncated raw input of the partial-recovery property: a two-record
    array cut off inside the second record. -/
def c1raw : List Char :=
  "[\x7b\"filepath\":\"a\",\"content\":\"x\"\x7d,\x7b\"filepath\":\"b\",\"content\":\"y\"".data

/-- A truncated raw input preceded by two prose characters, so that the text
    from the first bracket and the candidate buffer start at different offsets. -/
def c5raw : List Char :=
  "xx[\x7b\"filepath\":\"a\",\"content\":\"x\"\x7d,\x7b\"fi".data

/-- A raw input whose record content holds literal braces inside a quoted
    string, preceded by prose so the full-document parse fails. -/
def c6raw : List Char :=
  "note [\x7b\"filepath\":\"a\",\"content\":\"func f() \x7b return \x7d\"\x7d]".data

/-- A syntactically valid JSON array whose second element is not an object, so
    the full-document decode fails after populating the slice. -/
def c8raw : List Char := "[\x7b\"filepath\":\"a\"\x7d,42]".data

/-- A container with the manifest Header, SharedDecls, f1, f2 and its four
    stored units. -/
def fsMain : FS :=
  ⟨[("editor/main",
     ["imports.gopart", "varsandstructs.gopart", "f1.gopart", "f2.gopart"])],
   [("editor/main/imports.gopart", "package m\n"),
    ("editor/main/varsandstructs.gopart", ""),
    ("editor/main/f1.gopart", "func f1() \x7b\x7d\n"),
    ("editor/main/f2.gopart", "func f2() \x7b\x7d\n")],
   ["editor/main"]⟩

/-- A delete edit record for unit f1. -/
def delF1 : FileContent := ⟨"editor/main/f1.gopart", "", true, "", ""⟩

/-- An edit for the already-present unit f2 carrying an insert-before hint. -/
def dupEdit : FileContent :=
  ⟨"editor/main/f2.gopart", "func f2() \x7b x() \x7d\n", false, "f1", ""⟩

/-- An edit for the new unit f3 with insert-before f2. -/
def insEdit : FileContent :=
  ⟨"editor/main/f3.gopart", "func f3() \x7b\x7d\n", false, "f2", ""⟩

/-- A parsed Go file holding a const declaration and one function. -/
def constFile : GoFile :=
  ⟨"m", [.constDecl [] "const c = 1", .funcDecl [] "f" "func f() \x7b\x7d"]⟩

/-- A parsed Go file whose function carries a directive line in its doc. -/
def noinlineFile : GoFile :=
  ⟨"m", [.funcDecl ["//go:noinline"] "f" "func f() \x7b\x7d"]⟩

/-- A parsed Go file with a var declaration carrying an embed directive. -/
def embedFile : GoFile :=
  ⟨"m", [.varTypeDecl ["//go:embed x.txt"] "var x string"]⟩

/-- A container with a single stored unit whose content holds a NUL byte. -/
def fsNul : FS :=
  ⟨[("d", ["a.gopart"])], [("d/a.gopart", ⟨['x', Char.ofNat 0, 'y']⟩)], ["d"]⟩

/-- Invariant of the scan: the candidate buffer is empty until the first
    top-level opening brace has been seen, and afterwards starts with it. -/
def accInv (s : ScanState) : Prop :=
  (s.objectStarted = false ∧ s.acc = []) ∨
  (∃ t, s.objectStarted = true ∧ s.acc = '{' :: t)

lemma skipWs_brace (cs : List Char) : skipWs ('{' :: cs) = '{' :: cs := rfl

lemma scanBody_cases (s : ScanState) (c : Char) :
    ((scanBody s c).acc = s.acc ∧ (scanBody s c).objectStarted = s.objectStarted ∧
      (scanBody s c).done = s.done) ∨
    (c = '{' ∧ (scanBody s c).acc = s.acc ∧ (scanBody s c).objectStarted = true ∧
      (scanBody s c).done = s.done) ∨
    (s.objectStarted = true ∧ (scanBody s c).acc = s.acc ++ [c] ∧
      (scanBody s c).objectStarted = true) := by
  unfold scanBody
  split_ifs <;> simp_all

lemma scanStep_accInv (s : ScanState) (c : Char) (h : accInv s) :
    accInv (scanStep s c) := by
  unfold scanStep
  by_cases hd : s.done
  · simpa [hd] using h
  · simp only [hd, if_false]
    rcases scanBody_cases s c with ⟨ha, ho, hd1⟩ | ⟨hc, ha, ho, hd1⟩ | ⟨ho, ha, ho2⟩
    · rcases h with ⟨hs, hacc⟩ | ⟨t, hs, hacc⟩
      · simp [hd1, hd, ho, hs, accInv, ha, hacc]
      · simp only [hd1, hd, if_false, ho, hs, if_true, accInv]
        right
        exact ⟨t ++ [c], by simp [ho, hs], by simp [ha, hacc]⟩
    · subst hc
      simp only [hd1, hd, if_false, ho, if_true, accInv]
      right
      rcases h with ⟨hs, hacc⟩ | ⟨t, hs, hacc⟩
      · exact ⟨[], rfl, by simp [ha, hacc]⟩
      · exact ⟨t ++ ['{'], rfl, by simp [ha, hacc]⟩
    · have hacc : ∃ t, s.acc = '{' :: t := by
        rcases h with ⟨hs, _⟩ | ⟨t, hs, hacc⟩
        · rw [hs] at ho; cases ho
        · exact ⟨t, hacc⟩
      rcases hacc with ⟨t, hacc⟩
      unfold accInv
      by_cases hdd : (scanBody s c).done = true
      · right
        exact ⟨t ++ [c], by simp [hdd, ho2], by simp [hdd, ha, hacc]⟩
      · right
        exact ⟨t ++ [c] ++ [c], by simp [hdd, ho2],
          by simp [hdd, ho2, ha, hacc]⟩

lemma scanFoldl_accInv : ∀ (cs : List Char) (s : ScanState), accInv s →
    accInv (cs.foldl scanStep s)
  | [], s, h => h
  | c :: t, s, h => scanFoldl_accInv t (scanStep s c) (scanStep_accInv s c h)

lemma scanCandidate_shape (cs : List Char) :
    scanCandidate cs = [] ∨ ∃ t, scanCandidate cs = '{' :: t := by
  have h := scanFoldl_accInv cs scanInit (Or.inl ⟨rfl, rfl⟩)
  unfold scanCandidate
  rcases h with ⟨_, hacc⟩ | ⟨t, _, hacc⟩
  · exact Or.inl hacc
  · exact Or.inr ⟨t, hacc⟩

lemma parseVal_brace (f : Nat) (cs : List Char) (v : JVal) (r : List Char)
    (h : parseVal f ('{' :: cs) = some (v, r)) : ∃ fl, v = JVal.jobj fl := by
  cases f with
  | zero => simp [parseVal] at h
  | succ f =>
    rw [parseVal] at h
    rw [show skipWs ('{' :: cs) = '{' :: cs from rfl] at h
    simp only at h
    rw [if_neg (by decide : ¬('{' : Char) = 'n'), if_neg (by decide : ¬('{' : Char) = 't'),
        if_neg (by decide : ¬('{' : Char) = 'f'), if_neg (by decide : ¬('{' : Char) = '"'),
        if_neg (by decide : ¬(decide (('{' : Char) = '-') || ('{' : Char).isDigit) = true),
        if_neg (by decide : ¬('{' : Char) = '['), if_pos trivial] at h
    split at h
    · simp at h
      exact ⟨[], h.1.symm⟩
    · split at h
      · simp at h
        exact ⟨_, h.1.symm⟩
      · simp at h

lemma goUnmarshal_braceHead (prev : List FileContent) (t : List Char) :
    goUnmarshalChanges prev ('{' :: t) = (prev, false) := by
  unfold goUnmarshalChanges checkValidParse
  rcases hp : parseVal (2 * ('{' :: t).length + 8) ('{' :: t) with _ | ⟨v, r⟩
  · simp [hp]
  · obtain ⟨fl, rfl⟩ := parseVal_brace _ t v r hp
    simp only [hp]
    split_ifs <;> simp [decChanges]

lemma parseChanges_fastfail (cont : List FileContent → List Char → List FileContent)
    (fs : FS) (raw : List Char) (h : (goUnmarshalChanges [] raw).2 = false) :
    parseChanges cont fs raw = (fs, (goUnmarshalChanges [] raw).1) := by
  unfold parseChanges
  simp only [h, Bool.false_eq_true, if_false]
  rcases hidx : idxOfCh '[' raw with _ | ⟨i⟩
  · simp
  · rcases scanCandidate_shape (raw.drop i) with hc | ⟨t, hc⟩
    · simp [hc]
    · simp only [hc]
      rw [goUnmarshal_braceHead]
      simp

lemma skipWs_sublist (cs : List Char) : ∀ x, x ∈ skipWs cs → x ∈ cs := by
  induction cs with
  | nil => simp [skipWs]
  | cons c t ih =>
    intro x hx
    by_cases hws : isWs c
    · rw [show skipWs (c :: t) = skipWs t by simp [skipWs, hws]] at hx
      exact List.mem_cons_of_mem c (ih x hx)
    · rw [show skipWs (c :: t) = c :: t by simp [skipWs, hws]] at hx
      exact hx

lemma parseVal_arr_head (f : Nat) (cs : List Char) (items : List JVal) (r : List Char)
    (h : parseVal f cs = some (.jarr items, r)) : '[' ∈ cs := by
  cases f with
  | zero => simp [parseVal] at h
  | succ f =>
    rw [parseVal] at h
    rcases hsk : skipWs cs with _ | ⟨c, t⟩ <;> rw [hsk] at h
    · simp at h
    · have hmem : c ∈ cs :=
        skipWs_sublist cs c (by rw [hsk]; exact List.mem_cons_self _ _)
      simp only at h
      split_ifs at h with h1 h2 h3 h4 h5 h6 h7
      · split at h <;> simp_all
      · split at h <;> simp_all
      · split at h <;> simp_all
      · split at h <;> simp_all
      · split at h <;> simp_all
      · exact h6 ▸ hmem
      · split at h
        · simp_all
        · split at h <;> simp_all

lemma idxOfCh_none (c : Char) (cs : List Char) (h : idxOfCh c cs = none) : c ∉ cs := by
  induction cs with
  | nil => simp
  | cons x t ih =>
    by_cases hx : x = c
    · rw [idxOfCh, if_pos hx] at h
      cases h
    · rw [idxOfCh, if_neg hx] at h
      have h2 : idxOfCh c t = none := by
        rcases ho : idxOfCh c t with _ | i
        · rfl
        · rw [ho] at h; simp at h
      intro hmem
      rcases List.mem_cons.mp hmem with h1 | h1
      · exact hx h1.symm
      · exact ih h2 h1

lemma fastparse_empty_of_no_bracket (raw : List Char) (hidx : idxOfCh '[' raw = none) :
    (goUnmarshalChanges [] raw).1 = [] := by
  have hmem := idxOfCh_none '[' raw hidx
  unfold goUnmarshalChanges checkValidParse
  rcases hp : parseVal (2 * raw.length + 8) raw with _ | ⟨w, r⟩
  · simp
  · simp only
    split_ifs with hr
    · cases w with
      | jarr items => exact absurd (parseVal_arr_head _ _ _ _ hp) hmem
      | jnull => simp [decChanges]
      | jbool b => simp [decChanges]
      | jnum l => simp [decChanges]
      | jstr l => simp [decChanges]
      | jobj l => simp [decChanges]
    · simp

lemma alookup_aset {α : Type} (k : String) (v : α) (m : List (String × α)) :
    alookup k (aset k v m) = some v := by
  induction m with
  | nil => simp [aset, alookup]
  | cons p t ih =>
    obtain ⟨k', v'⟩ := p
    by_cases hp : k' = k
    · simp [aset, hp, alookup]
    · simp [aset, hp, alookup, ih]

lemma updateSplitOrder_before (pre post : List String) (x n : String)
    (hx : (x ++ ".gopart") ∉ pre) :
    updateSplitOrder (pre ++ (x ++ ".gopart") :: post) n x true
      = pre ++ n :: (x ++ ".gopart") :: post := by
  induction pre with
  | nil => simp [updateSplitOrder]
  | cons f rest ih =>
    have hf : f ≠ x ++ ".gopart" := fun he => hx (by simp [he])
    simp only [List.cons_append, updateSplitOrder, if_neg hf]
    exact congrArg (List.cons f) (ih (fun hm => hx (List.mem_cons_of_mem f hm)))

lemma dataApp (a b : String) : (a ++ b).data = a.data ++ b.data := rfl

lemma prefixCheck_self_append (n b : List Char) : prefixCheck n (n ++ b) = true := by
  induction n with
  | nil => rfl
  | cons c t ih => simp [prefixCheck, ih]

lemma segCheck_self_append (n B : List Char) : segCheck n (n ++ B) = true := by
  cases n with
  | nil =>
    cases B with
    | nil => rfl
    | cons c t => simp [segCheck, prefixCheck]
  | cons c t =>
    have hca : c :: t ++ B = c :: (t ++ B) := by simp
    rw [hca, segCheck, ← hca, prefixCheck_self_append]
    simp

lemma segCheck_append_left (n a b : List Char) (h : segCheck n b = true) :
    segCheck n (a ++ b) = true := by
  induction a with
  | nil => simpa using h
  | cons c t ih =>
    rw [List.cons_append, segCheck, ih]
    simp

lemma segCheck_of_decomp (n hay : List Char) (h : ∃ A B, hay = A ++ n ++ B) :
    segCheck n hay = true := by
  obtain ⟨A, B, rfl⟩ := h
  rw [List.append_assoc]
  exact segCheck_append_left n A (n ++ B) (segCheck_self_append n B)

lemma foldl_app_extends {β : Type} (g : β → String) :
    ∀ (ds : List β) (s : String),
      ∃ u, (ds.foldl (fun a d => a ++ g d) s).data = s.data ++ u
  | [], s => ⟨[], by simp⟩
  | d :: ds, s => by
    obtain ⟨u, hu⟩ := foldl_app_extends g ds (s ++ g d)
    exact ⟨(g d).data ++ u, by rw [List.foldl_cons, hu, dataApp, List.append_assoc]⟩

lemma foldl_contains {β : Type} (g : β → String) (l : String) :
    ∀ (ds : List β) (s : String) (d : β), d ∈ ds →
      (∃ A B, (g d).data = A ++ l.data ++ B) →
      ∃ A B, (ds.foldl (fun a d => a ++ g d) s).data = A ++ l.data ++ B
  | [], s, d, hd, _ => absurd hd (List.not_mem_nil d)
  | d' :: ds, s, d, hd, hg => by
    rcases List.mem_cons.mp hd with h1 | h1
    · subst h1
      obtain ⟨A, B, hAB⟩ := hg
      obtain ⟨u, hu⟩ := foldl_app_extends g ds (s ++ g d)
      refine ⟨s.data ++ A, B ++ u, ?_⟩
      rw [List.foldl_cons, hu, dataApp, hAB]
      simp [List.append_assoc]
    · exact foldl_contains g l ds (s ++ g d') d h1 hg


/-- Claim C1 (code bug): for the truncated input of the partial-recovery
    property, the scan does recover the complete first object as its candidate
    buffer, yet parseChanges returns an empty record list for every
    continuation oracle and store state: the candidate, a single JSON object,
    is unmarshalled into the record-list type and that always fails, so the
    promised record for path a with content x is never produced and no
    remainder is ever handed on. -/
theorem c1_truncated_input_yields_no_records
    (cont : List FileContent → List Char → List FileContent) (fs : FS) :
    scanCandidate c1raw = "\x7b\"filepath\":\"a\",\"content\":\"x\"\x7d".data ∧
    (parseChanges cont fs c1raw).2 = [] :=
  ⟨by decide, by
    rw [parseChanges_fastfail cont fs c1raw (by decide)]
    show (goUnmarshalChanges [] c1raw).1 = []
    decide⟩

/-- Claim C2 (code bug): splitGoFile only keeps var and type declarations in
    the shared-declarations unit, so a const declaration is dropped from every
    unit and the recomposed source of the persisted manifest and units no
    longer holds it, breaking the round-trip property. -/
theorem c2_const_decl_lost :
    GoDecl.constDecl [] "const c = 1" ∈ constFile.decls ∧
    composeSplit (splitGoFile constFile ["f"])
      = some "package m\n\n\n\n\n\nfunc f() \x7b\x7d\n" ∧
    segCheck "const c = 1".data "package m\n\n\n\n\n\nfunc f() \x7b\x7d\n".data = false :=
  ⟨by decide, by decide, by decide⟩

/-- Claim C3 (code bug): the Reconciler violates manifest integrity. Starting
    from the manifest Header, SharedDecls, f1, f2, an edit for the
    already-present unit f2 carrying insert-before f1 makes processLocations
    produce a manifest in which the id f2.gopart occurs twice. -/
theorem c3_duplicate_manifest_ids :
    alookup "editor/main" (processLocations fsMain [dupEdit]).1.orders
      = some ["imports.gopart", "varsandstructs.gopart", "f2.gopart", "f1.gopart",
        "f2.gopart"] ∧
    ¬ List.Nodup ["imports.gopart", "varsandstructs.gopart", "f2.gopart", "f1.gopart",
        "f2.gopart"] :=
  ⟨by decide, by decide⟩

/-- Claim C4 (code bug): a delete edit removes the unit file from the store
    but nothing ever removes its id from the manifest: after deleting f1 the
    split order still lists f1.gopart while the unit is gone, and a second
    delete changes nothing. -/
theorem c4_delete_leaves_manifest_id :
    alookup "editor/main" (applyEdits fsMain [delF1]).orders
      = some ["imports.gopart", "varsandstructs.gopart", "f1.gopart", "f2.gopart"] ∧
    alookup "editor/main/f1.gopart" (applyEdits fsMain [delF1]).files = none ∧
    applyEdits (applyEdits fsMain [delF1]) [delF1] = applyEdits fsMain [delF1] :=
  ⟨by decide, by decide, by decide⟩

/-- Claim C5 (code bug): with two prose characters before the bracket, the
    scan recovers the complete first object and trailing text remains, but the
    remainder expression of parseChanges, the text from the bracket onwards
    with the candidate length dropped, starts at the closing brace of the
    parsed object rather than after it, and the continuation oracle can never
    influence the result anyway because the candidate never unmarshals. -/
theorem c5_remainder_misaligned_and_unused :
    scanCandidate (c5raw.drop 2) = "\x7b\"filepath\":\"a\",\"content\":\"x\"\x7d".data ∧
    c5raw.drop 2 = ('[' :: "\x7b\"filepath\":\"a\",\"content\":\"x\"\x7d".data)
      ++ ",\x7b\"fi".data ∧
    (c5raw.drop 2).drop (scanCandidate (c5raw.drop 2)).length
      = '}' :: ",\x7b\"fi".data ∧
    (c5raw.drop 2).drop (scanCandidate (c5raw.drop 2)).length ≠ ",\x7b\"fi".data ∧
    (∀ cont cont' fs, parseChanges cont fs c5raw = parseChanges cont' fs c5raw) :=
  ⟨by decide, by decide, by decide, by decide,
   fun cont cont' fs => by
     rw [parseChanges_fastfail cont fs c5raw (by decide),
       parseChanges_fastfail cont' fs c5raw (by decide)]⟩

/-- Claim C6 (code bug): a character seen while the inside-string flag holds
    never changes the depth counter, and on the concrete input whose content
    holds literal braces inside a quoted string the candidate buffer is exactly
    the complete single object; the record is nevertheless not parsed, because
    the single-object candidate never unmarshals into the record-list type and
    parseChanges returns no records. -/
theorem c6_string_brace_depth_safe_yet_unparsed :
    (∀ (s : ScanState) (c : Char), s.inString = true → (scanStep s c).depth = s.depth) ∧
    scanCandidate (c6raw.drop 5)
      = "\x7b\"filepath\":\"a\",\"content\":\"func f() \x7b return \x7d\"\x7d".data ∧
    (parseChanges noCont fsEmpty c6raw).2 = [] := by
  refine ⟨?_, by decide, by
    rw [parseChanges_fastfail noCont fsEmpty c6raw (by decide)]
    show (goUnmarshalChanges [] c6raw).1 = []
    decide⟩
  intro s c h
  by_cases hd : s.done = true
  · simp [scanStep, hd]
  · simp only [scanStep, scanBody, h, hd, if_true, if_false, Bool.false_eq_true]
    split_ifs <;> rfl

/-- Witness for claim C6: a concrete in-string closing brace leaves the depth
    counter at its value two. -/
theorem c6_string_brace_witness :
    (⟨2, true, false, true, ['{'], false⟩ : ScanState).inString = true ∧
    (scanStep ⟨2, true, false, true, ['{'], false⟩ '}').depth = 2 :=
  ⟨rfl, c6_string_brace_depth_safe_yet_unparsed.1 ⟨2, true, false, true, ['{'], false⟩ '}' rfl⟩

/-- Counterexample to claim C8 as stated: on a syntactically valid array whose
    second element fails to decode, the candidate buffer fails to parse and yet
    the extractor returns a non-empty record list, namely the two records the
    failed full-document decode left behind. -/
theorem c8_counterexample :
    (goUnmarshalChanges (goUnmarshalChanges [] c8raw).1 (scanCandidate c8raw)).2 = false ∧
    (parseChanges noCont fsEmpty c8raw).2 = [⟨"a", "", false, "", ""⟩, zeroFC] ∧
    (parseChanges noCont fsEmpty c8raw).2 ≠ [] := by
  have hpc : (parseChanges noCont fsEmpty c8raw).2 = [⟨"a", "", false, "", ""⟩, zeroFC] := by
    rw [parseChanges_fastfail noCont fsEmpty c8raw (by decide)]
    show (goUnmarshalChanges [] c8raw).1 = [⟨"a", "", false, "", ""⟩, zeroFC]
    decide
  refine ⟨by decide, hpc, ?_⟩
  rw [hpc]
  decide

/-- Claim C8 (amended): whenever the full-document parse fails, the extractor
    returns, without raising, exactly the record list that failed parse left
    behind; in particular, when no bracket occurs in the input at all, that
    list is empty. -/
theorem c8_failure_policy_amended (cont : List FileContent → List Char → List FileContent)
    (fs : FS) (raw : List Char) (h : (goUnmarshalChanges [] raw).2 = false) :
    (parseChanges cont fs raw).2 = (goUnmarshalChanges [] raw).1 ∧
    (idxOfCh '[' raw = none → (parseChanges cont fs raw).2 = []) := by
  constructor
  · rw [parseChanges_fastfail cont fs raw h]
  · intro hidx
    rw [parseChanges_fastfail cont fs raw h]
    exact fastparse_empty_of_no_bracket raw hidx

/-- Witness for claim C8: on a prose input without any bracket the extractor
    returns the empty record list. -/
theorem c8_failure_policy_witness :
    (goUnmarshalChanges [] "no structural output".data).2 = false ∧
    (parseChanges noCont fsEmpty "no structural output".data).2 = [] :=
  ⟨by decide,
   (c8_failure_policy_amended noCont fsEmpty "no structural output".data (by decide)).2
     (by decide)⟩

/-- Claim C7: a non-delete edit record whose insert-before hint names a unit
    present in the manifest makes the Reconciler splice the record's unit id
    immediately before the first occurrence of that unit. -/
theorem c7_insert_before_splices (fs : FS) (c : FileContent) (order pre post : List String)
    (hlk : alookup (dirName c.filePath) fs.orders = some order)
    (hdel : c.delete = false)
    (hins : c.insertBefore ≠ "")
    (horder : order = pre ++ (c.insertBefore ++ ".gopart") :: post)
    (hpre : (c.insertBefore ++ ".gopart") ∉ pre) :
    alookup (dirName c.filePath) (processLocations fs [c]).1.orders
      = some (pre ++ baseName c.filePath :: (c.insertBefore ++ ".gopart") :: post) := by
  have h1 : (processLocations fs [c]).1 = (processOne fs c).1 := by
    simp [processLocations]
  rw [h1]
  unfold processOne
  simp only [hlk, getInsertionPoint, if_pos hins, Bool.true_or, if_true]
  rw [horder, updateSplitOrder_before pre post c.insertBefore (baseName c.filePath) hpre]
  exact alookup_aset _ _ _

/-- Witness for claim C7: inserting the new unit f3 before f2 in the manifest
    Header, SharedDecls, f1, f2 yields Header, SharedDecls, f1, f3, f2. -/
theorem c7_insert_before_witness :
    insEdit.delete = false ∧ insEdit.insertBefore = "f2" ∧
    alookup (dirName insEdit.filePath) (processLocations fsMain [insEdit]).1.orders
      = some ["imports.gopart", "varsandstructs.gopart", "f1.gopart", "f3.gopart",
        "f2.gopart"] :=
  ⟨rfl, rfl,
   c7_insert_before_splices fsMain insEdit
     ["imports.gopart", "varsandstructs.gopart", "f1.gopart", "f2.gopart"]
     ["imports.gopart", "varsandstructs.gopart", "f1.gopart"] []
     (by decide) rfl (by decide) (by decide) (by decide)⟩

/-- Counterexample to claim C9 as stated: a directive line attached to a
    function declaration is dropped from the function's unit and appears in no
    other unit either. -/
theorem c9_counterexample :
    GoDecl.funcDecl ["//go:noinline"] "f" "func f() \x7b\x7d" ∈ noinlineFile.decls ∧
    alookup "f" (splitGoFile noinlineFile ["f"]).funcs = some "func f() \x7b\x7d\n" ∧
    segCheck "//go:noinline".data "func f() \x7b\x7d\n".data = false ∧
    segCheck "//go:noinline".data ((splitGoFile noinlineFile ["f"]).varsPart).data = false ∧
    segCheck "//go:noinline".data ((splitGoFile noinlineFile ["f"]).importsPart).data
      = false :=
  ⟨by decide, by decide, by decide, by decide, by decide⟩

/-- Claim C9 (amended): only embed directives attached to var and type
    declarations travel with their unit: every doc line of a var or type
    declaration that starts with the embed marker occurs in the
    shared-declarations unit written by splitGoFile. -/
theorem c9_embed_directives_preserved (f : GoFile) (iter : List String)
    (doc : List String) (text l : String)
    (hd : GoDecl.varTypeDecl doc text ∈ f.decls) (hl : l ∈ doc)
    (hk : embedKeep l = true) :
    segCheck l.data ((splitGoFile f iter).varsPart).data = true := by
  apply segCheck_of_decomp
  show ∃ A B, (varsPartOf f.decls).data = A ++ l.data ++ B
  unfold varsPartOf
  apply foldl_contains vtSegment l f.decls "" _ hd
  show ∃ A B, (vtSegment (GoDecl.varTypeDecl doc text)).data = A ++ l.data ++ B
  unfold vtSegment
  have hfl : l ∈ doc.filter embedKeep := List.mem_filter.mpr ⟨hl, hk⟩
  obtain ⟨A, B, hAB⟩ :=
    foldl_contains (fun x => x ++ "\n") l (doc.filter embedKeep) "" l hfl
      ⟨[], "\n".data, by simp [dataApp]⟩
  exact ⟨A, B ++ (text ++ "\n\n").data, by rw [dataApp, hAB]; simp [List.append_assoc]⟩

/-- Witness for claim C9: an embed directive on a var declaration lands in the
    shared-declarations unit. -/
theorem c9_embed_directives_witness :
    GoDecl.varTypeDecl ["//go:embed x.txt"] "var x string" ∈ embedFile.decls ∧
    segCheck "//go:embed x.txt".data ((splitGoFile embedFile []).varsPart).data = true :=
  ⟨by decide,
   c9_embed_directives_preserved embedFile [] ["//go:embed x.txt"] "var x string"
     "//go:embed x.txt" (by decide) (by decide) (by decide)⟩

/-- Claim C10: whatever unsplitGoFile composes holds no NUL character; every
    NUL byte of any stored unit is silently removed during recomposition. -/
theorem c10_composed_output_has_no_nul (fs : FS) (dir : String) (out : String)
    (h : unsplitGoFile fs dir = some out) : Char.ofNat 0 ∉ out.data := by
  unfold unsplitGoFile unsplitFromStore at h
  rcases ho : alookup dir fs.orders with _ | order <;> rw [ho] at h
  · cases h
  · simp only at h
    rcases hr : readParts (fun p => alookup (dir ++ "/" ++ p) fs.files) order
      with _ | ps <;> rw [hr] at h
    · cases h
    · simp at h
      intro hmem
      rw [← h] at hmem
      unfold removeNul at hmem
      simp at hmem

/-- Witness for claim C10: composing a unit whose content holds a NUL byte
    yields output with the byte removed. -/
theorem c10_composed_output_witness :
    unsplitGoFile fsNul "d" = some "xy" ∧ Char.ofNat 0 ∉ "xy".data :=
  ⟨by decide, c10_composed_output_has_no_nul fsNul "d" "xy" (by decide)⟩
